import Mathlib

/-
Verification of the bygis::Graph relationship store (src/Graph.hpp).

The C++ class stores a nested ordered map
  data : map<int, map<int, map<string, pair<bool, float>>>>
plus two configuration fields (directed : bool, no_relationship : float).
We embed the store shallowly: each std::map level becomes an association
list (key/value list, unique keys in every state reachable from the empty
map), float magnitudes become rationals (the operations only copy, negate
and compare magnitudes, so the embedding is exact on the values used),
and each member function becomes a Lean function with the same branch
structure as the source.
-/

namespace bygis

/-- Magnitudes: the C++ float values. The store only copies, negates, and
compares them against the sentinel with an absolute 1e-7 tolerance, so we
model them as rationals. -/
abbrev Val := ℚ

/-- Lookup of the first (unique, in reachable states) binding of a key in
an association list, as std::map::find. -/
def mfind? {α β : Type} [DecidableEq α] : List (α × β) → α → Option β
  | [], _ => none
  | (a, b) :: t, k => if a = k then some b else mfind? t k

/-- Insert-or-replace a binding, as std::map::operator[] assignment. -/
def mset {α β : Type} [DecidableEq α] : List (α × β) → α → β → List (α × β)
  | [], k, v => [(k, v)]
  | (a, b) :: t, k, v => if a = k then (k, v) :: t else (a, b) :: mset t k v

/-- Remove every binding of a key, as std::map::erase (maps have unique
keys, so on reachable states this removes the one binding). -/
def merase {α β : Type} [DecidableEq α] (l : List (α × β)) (k : α) : List (α × β) :=
  l.filter (fun p => ! decide (p.1 = k))

/-- Innermost level: relation key to (outward flag, magnitude), as
map<string, pair<bool, float>>. -/
abbrev KeyMap := List (String × (Bool × Val))

/-- Middle level: neighbor id to its relation map. -/
abbrev NbrMap := List (Int × KeyMap)

/-- Outer level: source vertex id to its neighbor map. -/
abbrev Data := List (Int × NbrMap)

/-- The Graph class state: the directed flag, the no-relationship
sentinel, and the nested relationship table. -/
structure Graph where
  directed : Bool
  no_relationship : Val
  data : Data

/-- Lookup of the neighbor map of a source vertex (data.find(i)). -/
def findV (d : Data) (i : Int) : Option NbrMap :=
  mfind? d i

/-- Lookup of the relation map of an ordered pair (data[i].find(j)). -/
def findN (d : Data) (i j : Int) : Option KeyMap :=
  (mfind? d i).bind (fun V => mfind? V j)

/-- Lookup of the entry of a (source, target, key) triple. -/
def findE (d : Data) (i j : Int) (key : String) : Option (Bool × Val) :=
  (findN d i j).bind (fun N => mfind? N key)

/-- Read of data[i][j][key] through operator[], whose default-constructed
value is (false, 0); used only where the source reads an entry it has
either just checked to exist or immediately erases again. -/
def entryD (d : Data) (i j : Int) (key : String) : Bool × Val :=
  (findE d i j key).getD (false, 0)

/-- Graph::size: number of source vertices in the table. -/
def Graph.size (g : Graph) : Nat :=
  g.data.length

/-- Graph::contains(int,int,string,bool), lines 314-341: entry exists and
(undir or its outward flag). -/
def Graph.contains4 (g : Graph) (i j : Int) (key : String) (undir : Bool) : Bool :=
  match findE g.data i j key with
  | none => false
  | some R => undir || R.1

/-- Graph::contains_dir(int,int,string). -/
def Graph.contains_dir3 (g : Graph) (i j : Int) (key : String) : Bool :=
  g.contains4 i j key false

/-- Graph::contains_undir(int,int,string). -/
def Graph.contains_undir3 (g : Graph) (i j : Int) (key : String) : Bool :=
  g.contains4 i j key true

/-- Graph::contains(int,int,string): uses the store's own directedness. -/
def Graph.contains3 (g : Graph) (i j : Int) (key : String) : Bool :=
  g.contains4 i j key (! g.directed)

/-- Graph::contains_dir(int,int), lines 361-385: some key at (i,j) has
outward = true. -/
def Graph.contains_dir2 (g : Graph) (i j : Int) : Bool :=
  match findN g.data i j with
  | none => false
  | some N => N.any (fun kt => kt.2.1)

/-- Graph::contains_undir(int,int), lines 387-401: the (i,j) relation map
exists and is nonempty. -/
def Graph.contains_undir2 (g : Graph) (i j : Int) : Bool :=
  match findN g.data i j with
  | none => false
  | some N => ! N.isEmpty

/-- Graph::contains(int,int). -/
def Graph.contains2 (g : Graph) (i j : Int) : Bool :=
  if g.directed then g.contains_dir2 i j else g.contains_undir2 i j

/-- Graph::contains_dir(int), lines 412-437. -/
def Graph.contains_dir1 (g : Graph) (i : Int) : Bool :=
  match findV g.data i with
  | none => false
  | some V => V.any (fun jt => jt.2.any (fun kt => kt.2.1))

/-- Graph::contains_undir(int), lines 439-446: the vertex map exists and
is nonempty. -/
def Graph.contains_undir1 (g : Graph) (i : Int) : Bool :=
  match findV g.data i with
  | none => false
  | some V => ! V.isEmpty

/-- Graph::contains(int). -/
def Graph.contains1 (g : Graph) (i : Int) : Bool :=
  if g.directed then g.contains_dir1 i else g.contains_undir1 i

/-- Graph::get(int,int,string), lines 456-483: no_relationship when the
entry is absent, the magnitude when outward, the negated magnitude when
the entry is mirror-only. -/
def Graph.get3 (g : Graph) (i j : Int) (key : String) : Val :=
  match findE g.data i j key with
  | none => g.no_relationship
  | some R => if R.1 then R.2 else (-1) * R.2

/-- Graph::get(int,int): get with the empty key. -/
def Graph.get2 (g : Graph) (i j : Int) : Val :=
  g.get3 i j ""

/-- Graph::keys(int), lines 257-282. The source does data.find(i) and
dereferences the iterator WITHOUT checking it against end(); on a vertex
that is not a source in the table this dereferences the end iterator,
which is undefined behavior. We return none for that case and some of
the collected key list otherwise. -/
def Graph.keysI (g : Graph) (i : Int) : Option (List String) :=
  match mfind? g.data i with
  | none => none
  | some V => some (V.foldl (fun acc jN => acc ++ jN.2.map Prod.fst) [])

/-- Graph::keys(int,int), lines 285-311 (this overload does check both
find results). -/
def Graph.keysIJ (g : Graph) (i j : Int) : List String :=
  match findN g.data i j with
  | none => []
  | some N => N.map Prod.fst

/-- The private Graph::nbrs(int, UNDIRECTED, limit_key, key) specialized
to dir = UNDIRECTED (the only direction the clear operations use): a
neighbor j is collected iff its relation map is nonempty and, when
limit_key is set, contains the key. -/
def nbrsUD (d : Data) (i : Int) (limitk : Bool) (key : String) : List Int :=
  (((mfind? d i).getD []).filter
    (fun jN => if limitk then (mfind? jN.2 key).isSome else ! jN.2.isEmpty)).map Prod.fst

/-- The private Graph::update, lines 492-504: create the missing inner
maps, then assign data[i][j][key] = (outward, x). -/
def updateD (d : Data) (i j : Int) (key : String) (outward : Bool) (x : Val) : Data :=
  let V := (mfind? d i).getD []
  let N := (mfind? V j).getD []
  mset d i (mset V j (mset N key (outward, x)))

/-- Net effect of data[i][j].erase(key) followed by the pruning the
source always performs afterwards: a no-op when the (i,j) path is absent
(operator[] would create empty maps there, but the pruning removes them
again). -/
def eraseKeyInD (d : Data) (i j : Int) (key : String) : Data :=
  match mfind? d i with
  | none => d
  | some V =>
    match mfind? V j with
    | none => d
    | some N => mset d i (mset V j (merase N key))

/-- The pruning step `if (data[i][j].size() == 0) data[i].erase(j)`. -/
def pruneI (d : Data) (i j : Int) : Data :=
  match mfind? d i with
  | none => d
  | some V =>
    match mfind? V j with
    | none => d
    | some N => if N.isEmpty then mset d i (merase V j) else d

/-- The pruning step `if (data[i].size() == 0) data.erase(i)`. -/
def pruneV (d : Data) (i : Int) : Data :=
  match mfind? d i with
  | none => d
  | some V => if V.isEmpty then merase d i else d

/-- The four pruning lines that close Graph::clear(int,int,string,bool)
and Graph::clear_dir(int,int) (lines 573-576 and 615-618). -/
def pruneAll (d : Data) (i j : Int) : Data :=
  pruneV (pruneV (pruneI (pruneI d i j) j i) i) j

/-- Graph::clear(int,int,string,bool), lines 595-619: no-op if the entry
is absent; undirected clear erases both directions; directed clear leaves
a mirror-only entry alone, erases both when the mirror is mirror-only,
and otherwise demotes (i,j,key) to a mirror-only entry carrying the
mirror's magnitude; then prune empty maps. -/
def Graph.clear4 (g : Graph) (i j : Int) (key : String) (undir : Bool) : Graph :=
  if g.contains_undir3 i j key then
    let d := g.data
    let d1 :=
      if undir then eraseKeyInD (eraseKeyInD d i j key) j i key
      else if (entryD d i j key).1 = false then d
      else if (entryD d j i key).1 = false then
        eraseKeyInD (eraseKeyInD d j i key) i j key
      else updateD d i j key false (entryD d j i key).2
    { g with data := pruneAll d1 i j }
  else g

/-- Graph::clear_dir(int,int,string). -/
def Graph.clear_dir3 (g : Graph) (i j : Int) (key : String) : Graph :=
  g.clear4 i j key false

/-- Graph::clear_undir(int,int,string). -/
def Graph.clear_undir3 (g : Graph) (i j : Int) (key : String) : Graph :=
  g.clear4 i j key true

/-- Graph::clear(int,int,string): uses the store's own directedness. -/
def Graph.clear3 (g : Graph) (i j : Int) (key : String) : Graph :=
  g.clear4 i j key (! g.directed)

/-- One iteration of the loop of Graph::clear_dir(int,int), lines
558-571, for the key the iterator is at: skip a mirror-only entry, erase
both directions when the mirror is mirror-only (or absent, which
operator[] materializes as (false,0) and the branch erases again),
otherwise demote to mirror-only with the mirror's magnitude. -/
def clearDirStep (d : Data) (i j : Int) (key : String) : Data :=
  if (entryD d i j key).1 = false then d
  else if (entryD d j i key).1 = false then
    eraseKeyInD (eraseKeyInD d j i key) i j key
  else updateD d i j key false (entryD d j i key).2

/-- Keys of the (i,j) relation map, the loop domain of clear_dir(int,int). -/
def keysOf (d : Data) (i j : Int) : List String :=
  ((findN d i j).getD []).map Prod.fst

/-- Graph::clear_dir(int,int), lines 554-577. -/
def Graph.clear_dir2 (g : Graph) (i j : Int) : Graph :=
  if g.contains2 i j then
    let d1 := (keysOf g.data i j).foldl (fun d k => clearDirStep d i j k) g.data
    { g with data := pruneAll d1 i j }
  else g

/-- Net effect of data[i].erase(j): a no-op when vertex i is absent
(operator[] would create an empty map that the subsequent pruning
removes). -/
def eraseNbrD (d : Data) (i j : Int) : Data :=
  match mfind? d i with
  | none => d
  | some V => mset d i (merase V j)

/-- Graph::clear_undir(int,int), lines 579-587: erase the whole relation
maps in both directions, then prune empty vertices. -/
def Graph.clear_undir2 (g : Graph) (i j : Int) : Graph :=
  if g.contains_undir2 i j then
    { g with data := pruneV (pruneV (eraseNbrD (eraseNbrD g.data i j) j i) i) j }
  else g

/-- Graph::clear(int,int). -/
def Graph.clear2 (g : Graph) (i j : Int) : Graph :=
  if g.directed then g.clear_dir2 i j else g.clear_undir2 i j

/-- Graph::set(int,int,string,bool,float), lines 507-522: a value within
1e-7 of the sentinel clears instead; otherwise write (i,j,key) outward
and write the (j,i,key) mirror (outward for undirected, mirror-only for
directed unless an outward entry is already there). -/
def Graph.set5 (g : Graph) (i j : Int) (key : String) (undir : Bool) (x : Val) : Graph :=
  if |x - g.no_relationship| < 1 / 10000000 then
    if undir then g.clear_undir3 i j key else g.clear_dir3 i j key
  else
    let d1 := updateD g.data i j key true x
    let d2 :=
      if undir then updateD d1 j i key true x
      else
        if (Graph.mk g.directed g.no_relationship d1).contains3 j i key
            && (entryD d1 j i key).1 then d1
        else updateD d1 j i key false x
    { g with data := d2 }

/-- Graph::set(int,int,string,float). -/
def Graph.set4 (g : Graph) (i j : Int) (key : String) (x : Val) : Graph :=
  g.set5 i j key (! g.directed) x

/-- Graph::set_dir(int,int,string,float). -/
def Graph.set_dir4 (g : Graph) (i j : Int) (key : String) (x : Val) : Graph :=
  g.set5 i j key false x

/-- Graph::set_undir(int,int,string,float). -/
def Graph.set_undir4 (g : Graph) (i j : Int) (key : String) (x : Val) : Graph :=
  g.set5 i j key true x

/-- Graph::set(int,int,float). -/
def Graph.set3 (g : Graph) (i j : Int) (x : Val) : Graph :=
  g.set5 i j "" (! g.directed) x

/-- Graph::set_dir(int,int,float). -/
def Graph.set_dir3v (g : Graph) (i j : Int) (x : Val) : Graph :=
  g.set5 i j "" false x

/-- Graph::set_undir(int,int,float). -/
def Graph.set_undir3v (g : Graph) (i j : Int) (x : Val) : Graph :=
  g.set5 i j "" true x

/-- Graph::clear_dir(int,string), lines 637-642: pairwise directed clear
of the key against every neighbor of i (snapshot of nbrs(i)). -/
def Graph.clearDirVK (g : Graph) (i : Int) (key : String) : Graph :=
  (nbrsUD g.data i false "").foldl (fun g2 x => g2.clear_dir3 i x key) g

/-- Graph::clear_undir(int,string), lines 644-649: pairwise undirected
clear against every neighbor related to i under the key. -/
def Graph.clearUndirVK (g : Graph) (i : Int) (key : String) : Graph :=
  (nbrsUD g.data i true key).foldl (fun g2 x => g2.clear_undir3 i x key) g

/-- Graph::clear(int,string). -/
def Graph.clearVK (g : Graph) (i : Int) (key : String) : Graph :=
  if g.directed then g.clearDirVK i key else g.clearUndirVK i key

/-- One iteration of the loop of Graph::clear(int), lines 664-669:
erase the back-entry data[x][i] and drop vertex x if it became empty. -/
def clearVStep (d : Data) (i x : Int) : Data :=
  match mfind? d x with
  | none => d
  | some V => pruneV (mset d x (merase V i)) x

/-- Graph::clear(int), lines 658-670: drop vertex i and every neighbor's
back-entry toward i. -/
def Graph.clearV (g : Graph) (i : Int) : Graph :=
  if g.contains_undir1 i then
    { g with data := (nbrsUD g.data i false "").foldl (fun d x => clearVStep d i x) (merase g.data i) }
  else g

/-- Graph::clear(string), lines 673-705: remove every entry with the key
anywhere, pruning relation maps and vertices that become empty. -/
def Graph.clearK (g : Graph) (key : String) : Graph :=
  { g with data :=
      ((g.data.map (fun iV => (iV.1,
          (iV.2.map (fun jN => (jN.1, merase jN.2 key))).filter
            (fun jN => ! jN.2.isEmpty)))).filter
        (fun iV => ! iV.2.isEmpty)) }

/-- Graph::clear(), lines 708-711. -/
def Graph.clearAll (g : Graph) : Graph :=
  { g with data := [] }

/-- Graph::operator=, lines 122-128: copies directed and data, but NOT
no_relationship (the target keeps its own sentinel). -/
def Graph.assign (tgt src : Graph) : Graph :=
  { directed := src.directed, no_relationship := tgt.no_relationship, data := src.data }

/-- Graph::Graph(const Graph&), lines 111-115: initializes directed and
data, but no_relationship is absent from the initializer list, so it is
default-initialized to an indeterminate float value; the parameter indet
stands for that indeterminate value. -/
def Graph.copyCtor (src : Graph) (indet : Val) : Graph :=
  { directed := src.directed, no_relationship := indet, data := src.data }

/- Basic association-list lemmas. -/

theorem mfind_mset_self {α β : Type} [DecidableEq α] (l : List (α × β)) (k : α) (v : β) :
    mfind? (mset l k v) k = some v := by
  induction l with
  | nil => simp [mset, mfind?]
  | cons p t ih =>
    obtain ⟨a, b⟩ := p
    by_cases h : a = k
    · simp [mset, h, mfind?]
    · simp [mset, h, mfind?, ih]

theorem mfind_mset_ne {α β : Type} [DecidableEq α] (l : List (α × β)) (k a : α) (v : β)
    (h : a ≠ k) : mfind? (mset l k v) a = mfind? l a := by
  have hka : k ≠ a := fun hh => h hh.symm
  induction l with
  | nil => simp [mset, mfind?, hka]
  | cons p t ih =>
    obtain ⟨c, b⟩ := p
    by_cases hc : c = k
    · rw [hc]
      simp [mset, mfind?, hka]
    · simp only [mset, if_neg hc, mfind?]
      by_cases hca : c = a <;> simp [hca, ih]

theorem mset_ne_nil {α β : Type} [DecidableEq α] (l : List (α × β)) (k : α) (v : β) :
    mset l k v ≠ [] := by
  cases l with
  | nil => simp [mset]
  | cons p t =>
    obtain ⟨a, b⟩ := p
    by_cases h : a = k <;> simp [mset, h]

theorem mfind_merase_self {α β : Type} [DecidableEq α] (l : List (α × β)) (k : α) :
    mfind? (merase l k) k = none := by
  induction l with
  | nil => simp [merase, mfind?]
  | cons p t ih =>
    obtain ⟨a, b⟩ := p
    by_cases h : a = k
    · simpa [merase, h] using ih
    · simpa [merase, mfind?, h] using ih

theorem merase_cons_self {α β : Type} [DecidableEq α] (t : List (α × β)) (c : α) (b : β)
    (k : α) (hc : c = k) : merase ((c, b) :: t) k = merase t k := by
  simp [merase, List.filter, hc]

theorem merase_cons_ne {α β : Type} [DecidableEq α] (t : List (α × β)) (c : α) (b : β)
    (k : α) (hc : ¬ c = k) : merase ((c, b) :: t) k = (c, b) :: merase t k := by
  simp [merase, List.filter, hc]

theorem mfind_merase_ne {α β : Type} [DecidableEq α] (l : List (α × β)) (k a : α)
    (h : a ≠ k) : mfind? (merase l k) a = mfind? l a := by
  induction l with
  | nil => rfl
  | cons p t ih =>
    obtain ⟨c, b⟩ := p
    by_cases hc : c = k
    · have hca : ¬ c = a := fun hh => h (hh.symm.trans hc)
      rw [merase_cons_self t c b k hc, ih]
      simp [mfind?, hca]
    · rw [merase_cons_ne t c b k hc]
      by_cases hca : c = a <;> simp [mfind?, hca, ih]

theorem mfind_mem {α β : Type} [DecidableEq α] {l : List (α × β)} {a : α} {v : β}
    (h : mfind? l a = some v) : (a, v) ∈ l := by
  induction l with
  | nil => simp [mfind?] at h
  | cons p t ih =>
    obtain ⟨c, b⟩ := p
    by_cases hc : c = a
    · subst hc
      simp [mfind?] at h
      simp [h]
    · simp only [mfind?, if_neg hc] at h
      exact List.mem_cons_of_mem _ (ih h)

theorem mfind_eq_none_of_nil_merase {α β : Type} [DecidableEq α] {l : List (α × β)} {k : α}
    (h : merase l k = []) (a : α) (ha : a ≠ k) : mfind? l a = none := by
  induction l with
  | nil => simp [mfind?]
  | cons p t ih =>
    obtain ⟨c, b⟩ := p
    by_cases hc : c = k
    · have ht : merase t k = [] := by
        rw [hc] at h
        simpa [merase, List.filter] using h
      have hca : ¬ c = a := fun hh => ha (hh.symm.trans hc)
      simp only [mfind?, if_neg hca]
      exact ih ht
    · exfalso
      simp [merase, List.filter, hc] at h

/- Characterization of findE through each elementary table operation. -/

theorem findE_updateD (d : Data) (i j : Int) (key : String) (b : Bool) (x : Val)
    (a c : Int) (k : String) :
    findE (updateD d i j key b x) a c k =
      if a = i ∧ c = j ∧ k = key then some (b, x) else findE d a c k := by
  simp only [updateD, findE, findN]
  by_cases hai : a = i
  · rw [hai, mfind_mset_self]
    simp only [Option.some_bind]
    by_cases hcj : c = j
    · rw [hcj, mfind_mset_self]
      simp only [Option.some_bind]
      by_cases hk : k = key
      · rw [hk, mfind_mset_self]
        simp [hai, hcj, hk]
      · rw [mfind_mset_ne _ _ _ _ hk, if_neg (fun hh => hk hh.2.2)]
        cases hdi : mfind? d i with
        | none => simp [hdi, mfind?]
        | some V =>
          cases hVj : mfind? V j with
          | none => simp [hdi, hVj, mfind?]
          | some N => simp [hdi, hVj]
    · rw [mfind_mset_ne _ _ _ _ hcj, if_neg (fun hh => hcj hh.2.1)]
      cases hdi : mfind? d i with
      | none => simp [hdi, mfind?]
      | some V => simp [hdi]
  · rw [mfind_mset_ne _ _ _ _ hai, if_neg (fun hh => hai hh.1)]

theorem findE_eraseKeyInD (d : Data) (i j : Int) (key : String)
    (a c : Int) (k : String) :
    findE (eraseKeyInD d i j key) a c k =
      if a = i ∧ c = j ∧ k = key then none else findE d a c k := by
  unfold eraseKeyInD
  split
  · rename_i hdi
    by_cases h : a = i ∧ c = j ∧ k = key
    · rw [if_pos h]
      simp [findE, findN, h.1, hdi]
    · rw [if_neg h]
  · rename_i V hdi
    split
    · rename_i hVj
      by_cases h : a = i ∧ c = j ∧ k = key
      · rw [if_pos h]
        simp [findE, findN, h.1, h.2.1, hdi, hVj]
      · rw [if_neg h]
    · rename_i N hVj
      simp only [findE, findN]
      by_cases hai : a = i
      · rw [hai, mfind_mset_self]
        simp only [Option.some_bind]
        by_cases hcj : c = j
        · rw [hcj, mfind_mset_self]
          simp only [Option.some_bind]
          by_cases hk : k = key
          · rw [hk, mfind_merase_self]
            simp [hai, hcj, hk]
          · rw [mfind_merase_ne _ _ _ hk, if_neg (fun hh => hk hh.2.2)]
            simp [hdi, hVj]
        · rw [mfind_mset_ne _ _ _ _ hcj, if_neg (fun hh => hcj hh.2.1)]
          simp [hdi]
      · rw [mfind_mset_ne _ _ _ _ hai, if_neg (fun hh => hai hh.1)]

theorem findE_pruneI (d : Data) (i j : Int) (a c : Int) (k : String) :
    findE (pruneI d i j) a c k = findE d a c k := by
  unfold pruneI
  split
  · rfl
  · rename_i V hdi
    split
    · rfl
    · rename_i N hVj
      by_cases hN : N.isEmpty
      · rw [if_pos hN]
        have hNnil : N = [] := List.isEmpty_iff.mp hN
        simp only [findE, findN]
        by_cases hai : a = i
        · rw [hai, mfind_mset_self]
          simp only [Option.some_bind]
          by_cases hcj : c = j
          · rw [hcj, mfind_merase_self]
            simp [hdi, hVj, hNnil, mfind?]
          · rw [mfind_merase_ne _ _ _ hcj]
            simp [hdi]
        · rw [mfind_mset_ne _ _ _ _ hai]
      · rw [if_neg hN]

theorem findE_pruneV (d : Data) (i : Int) (a c : Int) (k : String) :
    findE (pruneV d i) a c k = findE d a c k := by
  unfold pruneV
  split
  · rfl
  · rename_i V hdi
    by_cases hV : V.isEmpty
    · rw [if_pos hV]
      have hVnil : V = [] := List.isEmpty_iff.mp hV
      simp only [findE, findN]
      by_cases hai : a = i
      · rw [hai, mfind_merase_self]
        simp [hdi, hVnil, mfind?]
      · rw [mfind_merase_ne _ _ _ hai]
    · rw [if_neg hV]

theorem findE_pruneAll (d : Data) (i j : Int) (a c : Int) (k : String) :
    findE (pruneAll d i j) a c k = findE d a c k := by
  simp only [pruneAll, findE_pruneV, findE_pruneI]

theorem findE_eraseNbrD (d : Data) (i j : Int) (a c : Int) (k : String) :
    findE (eraseNbrD d i j) a c k =
      if a = i ∧ c = j then none else findE d a c k := by
  unfold eraseNbrD
  split
  · rename_i hdi
    by_cases h : a = i ∧ c = j
    · rw [if_pos h]
      simp [findE, findN, h.1, hdi]
    · rw [if_neg h]
  · rename_i V hdi
    simp only [findE, findN]
    by_cases hai : a = i
    · rw [hai, mfind_mset_self]
      simp only [Option.some_bind]
      by_cases hcj : c = j
      · rw [hcj, mfind_merase_self]
        simp [hai, hcj]
      · rw [mfind_merase_ne _ _ _ hcj, if_neg (fun hh => hcj hh.2)]
        simp [hdi]
    · rw [mfind_mset_ne _ _ _ _ hai, if_neg (fun hh => hai hh.1)]

theorem findE_none_of_not_contains_undir3 (g : Graph) (i j : Int) (key : String)
    (h : g.contains_undir3 i j key = false) : findE g.data i j key = none := by
  unfold Graph.contains_undir3 Graph.contains4 at h
  cases hE : findE g.data i j key with
  | none => rfl
  | some R =>
    rw [hE] at h
    simp at h

/-- After an undirected per-key clear, the (i,j,key) entry is gone. -/
theorem findE_clear4_undir_self (g : Graph) (i j : Int) (key : String) :
    findE (g.clear4 i j key true).data i j key = none := by
  unfold Graph.clear4
  by_cases hg : g.contains_undir3 i j key
  · rw [if_pos hg]
    simp only [eq_self_iff_true, if_true, findE_pruneAll]
    rw [findE_eraseKeyInD]
    by_cases hij : i = j
    · rw [if_pos ⟨hij, hij.symm, rfl⟩]
    · rw [if_neg (fun hh => hij hh.1), findE_eraseKeyInD, if_pos ⟨rfl, rfl, rfl⟩]
  · rw [if_neg hg]
    exact findE_none_of_not_contains_undir3 g i j key (Bool.eq_false_iff.mpr hg)

/-- C1. The spec claims copy construction / assignment reproduce the full
observable state, including the noRelationship sentinel. The source's
operator= copies directed and data but not no_relationship, and the copy
constructor leaves no_relationship out of its initializer list entirely
(indeterminate value). The table and the directed flag ARE copied, but
the sentinel is not, so get on a missing pair differs between the copy
and the original. -/
theorem C1_sentinel_not_copied :
    (Graph.assign (Graph.mk false 7 []) (Graph.mk true 3 [(1, [(2, [("a", (true, 5))])])])).data
        = (Graph.mk true 3 [(1, [(2, [("a", (true, 5))])])] : Graph).data ∧
    (Graph.assign (Graph.mk false 7 []) (Graph.mk true 3 [(1, [(2, [("a", (true, 5))])])])).directed
        = (Graph.mk true 3 [(1, [(2, [("a", (true, 5))])])] : Graph).directed ∧
    ¬ (Graph.assign (Graph.mk false 7 []) (Graph.mk true 3 [(1, [(2, [("a", (true, 5))])])])).no_relationship
        = (3 : Val) ∧
    ¬ (Graph.assign (Graph.mk false 7 []) (Graph.mk true 3 [(1, [(2, [("a", (true, 5))])])])).get3 9 9 ""
        = (Graph.mk true 3 [(1, [(2, [("a", (true, 5))])])] : Graph).get3 9 9 "" ∧
    ¬ (Graph.copyCtor (Graph.mk true 3 []) 7).no_relationship = (3 : Val) := by
  refine ⟨rfl, rfl, by norm_num [Graph.assign], ?_, by norm_num [Graph.copyCtor]⟩
  norm_num [Graph.assign, Graph.get3, findE, findN, mfind?]

/-- C2. The claim says every query on an absent vertex returns its benign
result, in particular keys(i) returns the empty set for a vertex that is
no source. The source of Graph::keys(int) dereferences data.find(i)
without comparing it to end(), which on an absent vertex is undefined
behavior rather than an empty set; keysI returns none exactly in that
case. (The other query overloads do check their find results.) -/
theorem C2_keysI_absent_vertex :
    Graph.keysI (Graph.mk true 0 []) 5 = none ∧
    Graph.keysI (Graph.mk true 0 [(1, [(2, [("a", (true, 3))])])]) 5 = none ∧
    Graph.keysI (Graph.mk true 0 [(1, [(2, [("a", (true, 3))])])]) 1 = some ["a"] := by
  refine ⟨rfl, by norm_num [Graph.keysI, mfind?], by norm_num [Graph.keysI, mfind?]⟩

/-- C4. The concrete demotion scenario: set_dir(1,2,w,5); set_dir(2,1,w,7)
builds a two-way directed pair, and clear_dir(1,2,w) demotes (1,2,w) to a
mirror-only entry carrying 7, so get(2,1,w) = 7 and get(1,2,w) = -7. -/
theorem C4_two_way_demotion :
    ((((Graph.mk true 0 []).set_dir4 1 2 "w" 5).set_dir4 2 1 "w" 7).clear_dir3 1 2 "w").get3 2 1 "w" = 7 ∧
    ((((Graph.mk true 0 []).set_dir4 1 2 "w" 5).set_dir4 2 1 "w" 7).clear_dir3 1 2 "w").get3 1 2 "w" = -7 := by
  constructor
  · norm_num [Graph.set_dir4, Graph.set5, Graph.clear_dir3, Graph.clear4, Graph.get3,
      Graph.contains_undir3, Graph.contains4, Graph.contains3,
      findE, findN, findV, entryD, updateD, eraseKeyInD, pruneAll, pruneI, pruneV,
      mfind?, mset, merase, List.filter]
  · norm_num [Graph.set_dir4, Graph.set5, Graph.clear_dir3, Graph.clear4, Graph.get3,
      Graph.contains_undir3, Graph.contains4, Graph.contains3,
      findE, findN, findV, entryD, updateD, eraseKeyInD, pruneAll, pruneI, pruneV,
      mfind?, mset, merase, List.filter]

/-- C5. Undirected round trip: for any state and any value at least 1e-7
away from the sentinel, set_undir(i,j,key,v) makes get return v in both
directions. -/
theorem C5_undirected_round_trip (g : Graph) (i j : Int) (key : String) (v : Val)
    (hv : 1 / 10000000 ≤ |v - g.no_relationship|) :
    (g.set_undir4 i j key v).get3 i j key = v ∧
    (g.set_undir4 i j key v).get3 j i key = v := by
  have hn : ¬ |v - g.no_relationship| < 1 / 10000000 := not_lt.mpr hv
  simp only [Graph.set_undir4, Graph.set5, if_neg hn, if_true]
  constructor
  · simp only [Graph.get3]
    rw [findE_updateD]
    by_cases hij : i = j
    · rw [if_pos ⟨hij, hij.symm, rfl⟩]
      simp
    · rw [if_neg (fun hh => hij hh.1), findE_updateD, if_pos ⟨rfl, rfl, rfl⟩]
      simp
  · simp only [Graph.get3]
    rw [findE_updateD, if_pos ⟨rfl, rfl, rfl⟩]
    simp

theorem C5_witness :
    (1 : Val) / 10000000 ≤ |5 - (Graph.mk true 0 [] : Graph).no_relationship| ∧
    ((Graph.mk true 0 [] : Graph).set_undir4 1 2 "k" 5).get3 1 2 "k" = 5 ∧
    ((Graph.mk true 0 [] : Graph).set_undir4 1 2 "k" 5).get3 2 1 "k" = 5 :=
  ⟨by norm_num, C5_undirected_round_trip (Graph.mk true 0 []) 1 2 "k" 5 (by norm_num)⟩

theorem clear4_no_relationship (g : Graph) (i j : Int) (key : String) (undir : Bool) :
    (g.clear4 i j key undir).no_relationship = g.no_relationship := by
  unfold Graph.clear4
  split <;> rfl

theorem set5_no_relationship (g : Graph) (i j : Int) (key : String) (undir : Bool) (x : Val) :
    (g.set5 i j key undir x).no_relationship = g.no_relationship := by
  unfold Graph.set5
  split
  · cases undir <;>
      simp [Graph.clear_undir3, Graph.clear_dir3, clear4_no_relationship]
  · rfl

/-- C6 counterexample. The claim quantifies over all i, j; at i = j it
fails on the code: with no prior (1,1,"") entry, set_dir(1,1,"",5) writes
the single self-loop entry outward, so get(1,1,"") = 5 and not -5 as the
claim (read at j = i) requires. -/
theorem C6_cex_self_loop :
    findE (Graph.mk true 0 [] : Graph).data 1 1 "" = none ∧
    (1 : Val) / 10000000 ≤ |5 - (Graph.mk true 0 [] : Graph).no_relationship| ∧
    ((Graph.mk true 0 [] : Graph).set_dir4 1 1 "" 5).get3 1 1 "" = 5 ∧
    ¬ ((Graph.mk true 0 [] : Graph).set_dir4 1 1 "" 5).get3 1 1 "" = -(5 : Val) := by
  refine ⟨rfl, by norm_num, ?_, ?_⟩ <;>
    norm_num [Graph.set_dir4, Graph.set5, Graph.get3, Graph.contains3, Graph.contains4,
      findE, findN, entryD, updateD, mfind?, mset]

/-- C6 amended: for distinct vertices i and j, a non-sentinel v, and no
prior (j,i,key) entry, set_dir(i,j,key,v) makes get(i,j,key) = v and
get(j,i,key) = -v (the mirror-only entry is read back negated). -/
theorem C6_directed_asymmetry (g : Graph) (i j : Int) (key : String) (v : Val)
    (hij : ¬ i = j) (hv : 1 / 10000000 ≤ |v - g.no_relationship|)
    (habs : findE g.data j i key = none) :
    (g.set_dir4 i j key v).get3 i j key = v ∧
    (g.set_dir4 i j key v).get3 j i key = -v := by
  have hn : ¬ |v - g.no_relationship| < 1 / 10000000 := not_lt.mpr hv
  have hji : ¬ j = i := fun hh => hij hh.symm
  have hd1 : findE (updateD g.data i j key true v) j i key = none := by
    rw [findE_updateD, if_neg (fun hh => hji hh.1)]
    exact habs
  have hdata : (g.set_dir4 i j key v).data
      = updateD (updateD g.data i j key true v) j i key false v := by
    simp only [Graph.set_dir4, Graph.set5, if_neg hn]
    simp [Graph.contains3, Graph.contains4, hd1]
  constructor
  · simp only [Graph.get3, hdata]
    rw [findE_updateD, if_neg (fun hh => hij hh.1), findE_updateD, if_pos ⟨rfl, rfl, rfl⟩]
    simp
  · simp only [Graph.get3, hdata]
    rw [findE_updateD, if_pos ⟨rfl, rfl, rfl⟩]
    simp

theorem C6_amended_witness :
    ¬ (1 : Int) = 2 ∧ (1 : Val) / 10000000 ≤ |5 - (Graph.mk true 0 [] : Graph).no_relationship| ∧
    findE (Graph.mk true 0 [] : Graph).data 2 1 "k" = none ∧
    (((Graph.mk true 0 [] : Graph).set_dir4 1 2 "k" 5).get3 1 2 "k" = 5 ∧
     ((Graph.mk true 0 [] : Graph).set_dir4 1 2 "k" 5).get3 2 1 "k" = -5) :=
  ⟨by norm_num, by norm_num, rfl,
    C6_directed_asymmetry (Graph.mk true 0 []) 1 2 "k" 5 (by norm_num) (by norm_num) rfl⟩

/-- C7. A set whose value is within 1e-7 of the sentinel performs exactly
the corresponding per-key clear (whole-state equality), and in particular
after set_undir(i,j,key,noRelationship) the relationship is gone:
contains(i,j,key) is false and get(i,j,key) returns the sentinel. -/
theorem C7_sentinel_clears (g : Graph) (i j : Int) (key : String) (undir : Bool) (x : Val)
    (hx : |x - g.no_relationship| < 1 / 10000000) :
    g.set5 i j key undir x = g.clear4 i j key undir ∧
    (g.set_undir4 i j key g.no_relationship).contains3 i j key = false ∧
    (g.set_undir4 i j key g.no_relationship).get3 i j key = g.no_relationship := by
  have h0 : |g.no_relationship - g.no_relationship| < 1 / 10000000 := by
    rw [sub_self, abs_zero]
    norm_num
  have hE : findE (g.set_undir4 i j key g.no_relationship).data i j key = none := by
    have hdata : g.set_undir4 i j key g.no_relationship = g.clear4 i j key true := by
      simp only [Graph.set_undir4, Graph.set5, if_pos h0, if_true, Graph.clear_undir3]
    rw [hdata]
    exact findE_clear4_undir_self g i j key
  refine ⟨?_, ?_, ?_⟩
  · simp only [Graph.set5, if_pos hx]
    cases undir
    · simp [Graph.clear_dir3]
    · simp [Graph.clear_undir3]
  · simp [Graph.contains3, Graph.contains4, hE]
  · have hE2 : findE (g.set5 i j key true g.no_relationship).data i j key = none := hE
    simp [Graph.get3, Graph.set_undir4, set5_no_relationship, hE2]

theorem C7_witness :
    |(3 : Val) - (Graph.mk true 3 [] : Graph).no_relationship| < 1 / 10000000 ∧
    ((Graph.mk true 3 [] : Graph).set5 1 2 "k" true 3
        = (Graph.mk true 3 [] : Graph).clear4 1 2 "k" true ∧
      ((Graph.mk true 3 [] : Graph).set_undir4 1 2 "k"
          (Graph.mk true 3 [] : Graph).no_relationship).contains3 1 2 "k" = false ∧
      ((Graph.mk true 3 [] : Graph).set_undir4 1 2 "k"
          (Graph.mk true 3 [] : Graph).no_relationship).get3 1 2 "k"
        = (Graph.mk true 3 [] : Graph).no_relationship) :=
  ⟨by norm_num, C7_sentinel_clears (Graph.mk true 3 []) 1 2 "k" true 3 (by norm_num)⟩

/-- C8 counterexample. The claim quantifies over all i, j; at i = j it
fails: with the prior outward entry (1,1,k) = (true,5), set_dir(1,1,k,7)
overwrites that same entry with (true,7), so the "(j,i,key) entry" is not
left unchanged. -/
theorem C8_cex_self_loop :
    findE ((Graph.mk true 0 [] : Graph).set_dir4 1 1 "k" 5).data 1 1 "k" = some (true, 5) ∧
    (1 : Val) / 10000000 ≤ |7 - (Graph.mk true 0 [] : Graph).no_relationship| ∧
    ¬ findE (((Graph.mk true 0 [] : Graph).set_dir4 1 1 "k" 5).set_dir4 1 1 "k" 7).data 1 1 "k"
        = some (true, 5) := by
  refine ⟨?_, by norm_num, ?_⟩ <;>
    norm_num [Graph.set_dir4, Graph.set5, Graph.contains3, Graph.contains4,
      findE, findN, entryD, updateD, mfind?, mset]

/-- C8 amended: for DISTINCT i and j, if an outward entry already exists
at (j,i,key), a directed write set_dir(i,j,key,v) with non-sentinel v
leaves that entry completely unchanged (flag and magnitude) while writing
(i,j,key) = (outward, v). -/
theorem C8_directed_write_preserves_opposite (g : Graph) (i j : Int) (key : String)
    (v m : Val) (hij : ¬ i = j) (hv : 1 / 10000000 ≤ |v - g.no_relationship|)
    (hprior : findE g.data j i key = some (true, m)) :
    findE (g.set_dir4 i j key v).data j i key = some (true, m) ∧
    findE (g.set_dir4 i j key v).data i j key = some (true, v) := by
  have hn : ¬ |v - g.no_relationship| < 1 / 10000000 := not_lt.mpr hv
  have hji : ¬ j = i := fun hh => hij hh.symm
  have hd1 : findE (updateD g.data i j key true v) j i key = some (true, m) := by
    rw [findE_updateD, if_neg (fun hh => hji hh.1)]
    exact hprior
  have hdata : (g.set_dir4 i j key v).data = updateD g.data i j key true v := by
    simp only [Graph.set_dir4, Graph.set5, if_neg hn]
    simp [Graph.contains3, Graph.contains4, entryD, hd1]
  rw [hdata]
  exact ⟨hd1, by rw [findE_updateD, if_pos ⟨rfl, rfl, rfl⟩]⟩

theorem C8_amended_witness :
    ¬ (1 : Int) = 2 ∧ (1 : Val) / 10000000 ≤ |4 - (Graph.mk true 0 [] : Graph).no_relationship| ∧
    findE (Graph.mk true 0 [(2, [(1, [("k", (true, 9))])])] : Graph).data 2 1 "k"
        = some (true, 9) ∧
    (findE ((Graph.mk true 0 [(2, [(1, [("k", (true, 9))])])] : Graph).set_dir4 1 2 "k" 4).data 2 1 "k"
        = some (true, 9) ∧
     findE ((Graph.mk true 0 [(2, [(1, [("k", (true, 9))])])] : Graph).set_dir4 1 2 "k" 4).data 1 2 "k"
        = some (true, 4)) :=
  ⟨by norm_num, by norm_num, rfl,
    C8_directed_write_preserves_opposite (Graph.mk true 0 [(2, [(1, [("k", (true, 9))])])])
      1 2 "k" 4 9 (by norm_num) (by norm_num) rfl⟩

/-- C10 counterexample. The claim says clear(i,i,key,undir) removes the
self-loop. For undir = false (the directed per-key clear) the code takes
the demote branch instead: after set_dir(1,1,k,5), clear(1,1,k,false)
leaves the entry as (false,5), so it is not removed and get returns -5. -/
theorem C10_cex_directed_self_loop_clear :
    findE ((Graph.mk true 0 [] : Graph).set_dir4 1 1 "k" 5).data 1 1 "k" = some (true, 5) ∧
    findE (((Graph.mk true 0 [] : Graph).set_dir4 1 1 "k" 5).clear4 1 1 "k" false).data 1 1 "k"
        = some (false, 5) ∧
    (((Graph.mk true 0 [] : Graph).set_dir4 1 1 "k" 5).clear4 1 1 "k" false).contains_undir3 1 1 "k"
        = true ∧
    (((Graph.mk true 0 [] : Graph).set_dir4 1 1 "k" 5).clear4 1 1 "k" false).get3 1 1 "k"
        = -(5 : Val) := by
  refine ⟨?_, ?_, ?_, ?_⟩ <;>
    norm_num [Graph.set_dir4, Graph.set5, Graph.clear4, Graph.get3,
      Graph.contains_undir3, Graph.contains3, Graph.contains4,
      findE, findN, entryD, updateD, eraseKeyInD, pruneAll, pruneI, pruneV,
      mfind?, mset, merase, List.filter]

/-- C10 amended: self-loops are supported: for any non-sentinel v, both
set_dir(i,i,key,v) and set_undir(i,i,key,v) leave the single entry
(i,i,key) = (outward, v), so get(i,i,key) = v (never -v); the UNDIRECTED
clear(i,i,key,true) removes it and restores the absence of i when the
self-loop was i's only relationship (the directed clear(i,i,key,false)
instead demotes the entry to mirror-only, see the counterexample). -/
theorem C10_self_loops (g : Graph) (i : Int) (key : String) (v : Val)
    (hv : 1 / 10000000 ≤ |v - g.no_relationship|) :
    findE (g.set_dir4 i i key v).data i i key = some (true, v) ∧
    findE (g.set_undir4 i i key v).data i i key = some (true, v) ∧
    (g.set_dir4 i i key v).get3 i i key = v ∧
    (g.set_undir4 i i key v).get3 i i key = v ∧
    mfind? ((Graph.mk g.directed g.no_relationship
        [(i, [(i, [(key, (true, v))])])]).clear4 i i key true).data i = none := by
  have hn : ¬ |v - g.no_relationship| < 1 / 10000000 := not_lt.mpr hv
  have hd1 : findE (updateD g.data i i key true v) i i key = some (true, v) := by
    rw [findE_updateD, if_pos ⟨rfl, rfl, rfl⟩]
  have hdirdata : (g.set_dir4 i i key v).data = updateD g.data i i key true v := by
    simp only [Graph.set_dir4, Graph.set5, if_neg hn]
    simp [Graph.contains3, Graph.contains4, entryD, hd1]
  have hundirdata : (g.set_undir4 i i key v).data
      = updateD (updateD g.data i i key true v) i i key true v := by
    simp only [Graph.set_undir4, Graph.set5, if_neg hn, if_true]
  refine ⟨?_, ?_, ?_, ?_, ?_⟩
  · rw [hdirdata]
    exact hd1
  · rw [hundirdata, findE_updateD, if_pos ⟨rfl, rfl, rfl⟩]
  · rw [Graph.get3, hdirdata, hd1]
    simp
  · rw [Graph.get3, hundirdata, findE_updateD, if_pos ⟨rfl, rfl, rfl⟩]
    simp
  · simp [Graph.clear4, Graph.contains_undir3, Graph.contains4,
      findE, findN, entryD, eraseKeyInD, pruneAll, pruneI, pruneV,
      mfind?, mset, merase, List.filter]

theorem C10_witness :
    (1 : Val) / 10000000 ≤ |6 - (Graph.mk true 0 [] : Graph).no_relationship| ∧
    (findE ((Graph.mk true 0 [] : Graph).set_dir4 3 3 "s" 6).data 3 3 "s" = some (true, 6) ∧
     findE ((Graph.mk true 0 [] : Graph).set_undir4 3 3 "s" 6).data 3 3 "s" = some (true, 6) ∧
     ((Graph.mk true 0 [] : Graph).set_dir4 3 3 "s" 6).get3 3 3 "s" = 6 ∧
     ((Graph.mk true 0 [] : Graph).set_undir4 3 3 "s" 6).get3 3 3 "s" = 6 ∧
     mfind? ((Graph.mk true 0 [(3, [(3, [("s", (true, 6))])])] : Graph).clear4 3 3 "s" true).data 3
        = none) :=
  ⟨by norm_num, C10_self_loops (Graph.mk true 0 []) 3 "s" 6 (by norm_num)⟩

/-- One public mutation call of the set/clear families (C++ overloads are
distinguished by suffix; the v3 set overloads are the keyless ones). -/
inductive Op where
  | oSet5 : Int → Int → String → Bool → Val → Op
  | oSet4 : Int → Int → String → Val → Op
  | oSetDir4 : Int → Int → String → Val → Op
  | oSetUndir4 : Int → Int → String → Val → Op
  | oSet3 : Int → Int → Val → Op
  | oSetDir3 : Int → Int → Val → Op
  | oSetUndir3 : Int → Int → Val → Op
  | oClear4 : Int → Int → String → Bool → Op
  | oClearDir3 : Int → Int → String → Op
  | oClearUndir3 : Int → Int → String → Op
  | oClear3 : Int → Int → String → Op
  | oClearDir2 : Int → Int → Op
  | oClearUndir2 : Int → Int → Op
  | oClear2 : Int → Int → Op
  | oClearDirVK : Int → String → Op
  | oClearUndirVK : Int → String → Op
  | oClearVK : Int → String → Op
  | oClearV : Int → Op
  | oClearK : String → Op
  | oClearAll : Op

/-- Dispatch of one public mutation to the member function it names. -/
def applyOp (g : Graph) : Op → Graph
  | .oSet5 i j key undir x => g.set5 i j key undir x
  | .oSet4 i j key x => g.set4 i j key x
  | .oSetDir4 i j key x => g.set_dir4 i j key x
  | .oSetUndir4 i j key x => g.set_undir4 i j key x
  | .oSet3 i j x => g.set3 i j x
  | .oSetDir3 i j x => g.set_dir3v i j x
  | .oSetUndir3 i j x => g.set_undir3v i j x
  | .oClear4 i j key undir => g.clear4 i j key undir
  | .oClearDir3 i j key => g.clear_dir3 i j key
  | .oClearUndir3 i j key => g.clear_undir3 i j key
  | .oClear3 i j key => g.clear3 i j key
  | .oClearDir2 i j => g.clear_dir2 i j
  | .oClearUndir2 i j => g.clear_undir2 i j
  | .oClear2 i j => g.clear2 i j
  | .oClearDirVK i key => g.clearDirVK i key
  | .oClearUndirVK i key => g.clearUndirVK i key
  | .oClearVK i key => g.clearVK i key
  | .oClearV i => g.clearV i
  | .oClearK key => g.clearK key
  | .oClearAll => g.clearAll

/-- A finite sequence of public mutations applied left to right. -/
def applyOps (g : Graph) (ops : List Op) : Graph :=
  ops.foldl applyOp g

/-- Invariant 2 of the spec: every source vertex present maps to a
nonempty neighbor map, and every neighbor present maps to a nonempty
relation map. -/
def NoEmptyF (d : Data) : Prop :=
  ∀ a V, mfind? d a = some V →
    V ≠ [] ∧ ∀ b N, mfind? V b = some N → N ≠ []

/-- Weakening of NoEmptyF used between the erase steps and the pruning
steps of a clear: a relation map may be empty only at a pair listed in
ps, and a neighbor map may be empty only at a vertex listed in vs. -/
def AlmostF (d : Data) (ps : List (Int × Int)) (vs : List Int) : Prop :=
  ∀ a V, mfind? d a = some V →
    (V ≠ [] ∨ a ∈ vs) ∧ ∀ b N, mfind? V b = some N → (N ≠ [] ∨ (a, b) ∈ ps)

theorem noEmptyF_almost {d : Data} (h : NoEmptyF d) (ps : List (Int × Int)) (vs : List Int) :
    AlmostF d ps vs :=
  fun a V hV =>
    ⟨Or.inl (h a V hV).1, fun b N hN => Or.inl ((h a V hV).2 b N hN)⟩

theorem almost_nil {d : Data} (h : AlmostF d [] []) : NoEmptyF d :=
  fun a V hV =>
    ⟨((h a V hV).1).resolve_right (by simp),
     fun b N hN => (((h a V hV).2 b N hN)).resolve_right (by simp)⟩

theorem almost_mono {d : Data} {ps ps2 : List (Int × Int)} {vs vs2 : List Int}
    (h : AlmostF d ps vs) (hp : ∀ p ∈ ps, p ∈ ps2) (hv : ∀ v ∈ vs, v ∈ vs2) :
    AlmostF d ps2 vs2 :=
  fun a V hV =>
    ⟨((h a V hV).1).imp_right (hv a),
     fun b N hN => (((h a V hV).2 b N hN)).imp_right (hp (a, b))⟩

theorem updateD_almost {d : Data} {ps : List (Int × Int)} {vs : List Int}
    (h : AlmostF d ps vs) (i j : Int) (key : String) (b : Bool) (x : Val) :
    AlmostF (updateD d i j key b x) ps vs := by
  intro a V hV
  simp only [updateD] at hV
  by_cases hai : a = i
  · rw [hai, mfind_mset_self] at hV
    have hVe := (Option.some.inj hV).symm
    constructor
    · exact Or.inl (hVe ▸ mset_ne_nil _ _ _)
    · intro b2 N hN
      rw [hVe] at hN
      by_cases hbj : b2 = j
      · rw [hbj, mfind_mset_self] at hN
        exact Or.inl ((Option.some.inj hN).symm ▸ mset_ne_nil _ _ _)
      · rw [mfind_mset_ne _ _ _ _ hbj] at hN
        cases hdi : mfind? d i with
        | none =>
          rw [hdi] at hN
          simp [mfind?] at hN
        | some V1 =>
          rw [hdi] at hN
          simp only [Option.getD_some] at hN
          have := ((h i V1 hdi).2 b2 N hN)
          rw [hai]
          exact this
  · rw [mfind_mset_ne _ _ _ _ hai] at hV
    exact h a V hV

theorem eraseKeyInD_almost {d : Data} {ps : List (Int × Int)} {vs : List Int}
    (h : AlmostF d ps vs) (i j : Int) (key : String) :
    AlmostF (eraseKeyInD d i j key) ((i, j) :: ps) vs := by
  have hmono : AlmostF d ((i, j) :: ps) vs :=
    almost_mono h (fun p hp => List.mem_cons_of_mem _ hp) (fun v hv => hv)
  unfold eraseKeyInD
  split
  · exact hmono
  · rename_i V1 hdi
    split
    · exact hmono
    · rename_i N1 hVj
      intro a V hV
      by_cases hai : a = i
      · rw [hai, mfind_mset_self] at hV
        have hVe := (Option.some.inj hV).symm
        constructor
        · exact Or.inl (hVe ▸ mset_ne_nil _ _ _)
        · intro b2 N hN
          rw [hVe] at hN
          by_cases hbj : b2 = j
          · rw [hbj, mfind_mset_self] at hN
            rw [hai, hbj]
            exact Or.inr (List.mem_cons_self _ _)
          · rw [mfind_mset_ne _ _ _ _ hbj] at hN
            rw [hai]
            exact ((hmono i V1 hdi).2 b2 N hN)
      · rw [mfind_mset_ne _ _ _ _ hai] at hV
        exact hmono a V hV

theorem eraseNbrD_almost {d : Data} {ps : List (Int × Int)} {vs : List Int}
    (h : AlmostF d ps vs) (i j : Int) :
    AlmostF (eraseNbrD d i j) ps (i :: vs) := by
  have hmono : AlmostF d ps (i :: vs) :=
    almost_mono h (fun p hp => hp) (fun v hv => List.mem_cons_of_mem _ hv)
  unfold eraseNbrD
  split
  · exact hmono
  · rename_i V1 hdi
    intro a V hV
    by_cases hai : a = i
    · rw [hai, mfind_mset_self] at hV
      have hVe := (Option.some.inj hV).symm
      constructor
      · exact Or.inr (hai ▸ List.mem_cons_self _ _)
      · intro b2 N hN
        rw [hVe] at hN
        by_cases hbj : b2 = j
        · rw [hbj, mfind_merase_self] at hN
          exact absurd hN (by simp)
        · rw [mfind_merase_ne _ _ _ hbj] at hN
          rw [hai]
          exact ((hmono i V1 hdi).2 b2 N hN)
    · rw [mfind_mset_ne _ _ _ _ hai] at hV
      exact hmono a V hV

theorem filter_pred_ne {α : Type} [DecidableEq α] (x y : α) (h : ¬ x = y) :
    (! decide (x = y)) = true := by
  simp [h]

theorem pruneI_almost {d : Data} {ps : List (Int × Int)} {vs : List Int}
    (h : AlmostF d ps vs) (i j : Int) :
    AlmostF (pruneI d i j) (ps.filter (fun p => ! decide (p = (i, j)))) (i :: vs) := by
  have hvs : ∀ v ∈ vs, v ∈ i :: vs := fun v hv => List.mem_cons_of_mem _ hv
  unfold pruneI
  split
  · rename_i hdi
    intro a V hV
    have hai : ¬ a = i := fun hh => by
      rw [hh, hdi] at hV
      exact Option.noConfusion hV
    refine ⟨((h a V hV).1).imp_right (hvs a), fun b2 N hN => ?_⟩
    refine (((h a V hV).2 b2 N hN)).imp_right (fun hp => ?_)
    exact List.mem_filter.mpr ⟨hp, filter_pred_ne _ _ (fun hh => hai (congrArg Prod.fst hh))⟩
  · rename_i V1 hdi
    split
    · rename_i hVj
      intro a V hV
      refine ⟨((h a V hV).1).imp_right (hvs a), fun b2 N hN => ?_⟩
      refine (((h a V hV).2 b2 N hN)).imp_right (fun hp => ?_)
      refine List.mem_filter.mpr ⟨hp, filter_pred_ne _ _ ?_⟩
      intro hh
      have hai : a = i := congrArg Prod.fst hh
      have hbj : b2 = j := congrArg Prod.snd hh
      have hV2 := hV
      rw [hai] at hV2
      have hVe := Option.some.inj (hdi.symm.trans hV2)
      rw [hbj, ← hVe] at hN
      rw [hVj] at hN
      exact Option.noConfusion hN
    · rename_i N1 hVj
      by_cases hN1 : N1.isEmpty
      · rw [if_pos hN1]
        intro a V hV
        by_cases hai : a = i
        · rw [hai, mfind_mset_self] at hV
          have hVe := (Option.some.inj hV).symm
          refine ⟨Or.inr (hai ▸ List.mem_cons_self _ _), fun b2 N hN => ?_⟩
          rw [hVe] at hN
          by_cases hbj : b2 = j
          · rw [hbj, mfind_merase_self] at hN
            exact absurd hN (by simp)
          · rw [mfind_merase_ne _ _ _ hbj] at hN
            rw [hai]
            refine (((h i V1 hdi).2 b2 N hN)).imp_right (fun hp => ?_)
            exact List.mem_filter.mpr
              ⟨hp, filter_pred_ne _ _ (fun hh => hbj (congrArg Prod.snd hh))⟩
        · rw [mfind_mset_ne _ _ _ _ hai] at hV
          refine ⟨((h a V hV).1).imp_right (hvs a), fun b2 N hN => ?_⟩
          refine (((h a V hV).2 b2 N hN)).imp_right (fun hp => ?_)
          exact List.mem_filter.mpr
            ⟨hp, filter_pred_ne _ _ (fun hh => hai (congrArg Prod.fst hh))⟩
      · rw [if_neg hN1]
        have hN1ne : N1 ≠ [] := fun hh => hN1 (by simp [hh])
        intro a V hV
        refine ⟨((h a V hV).1).imp_right (hvs a), fun b2 N hN => ?_⟩
        by_cases hcase : a = i ∧ b2 = j
        · have hV2 := hV
          rw [hcase.1] at hV2
          have hVe := Option.some.inj (hdi.symm.trans hV2)
          have hN2 := hN
          rw [hcase.2, ← hVe, hVj] at hN2
          exact Or.inl ((Option.some.inj hN2).symm ▸ hN1ne)
        · refine (((h a V hV).2 b2 N hN)).imp_right (fun hp => ?_)
          refine List.mem_filter.mpr ⟨hp, filter_pred_ne _ _ ?_⟩
          intro hh
          exact hcase ⟨congrArg Prod.fst hh, congrArg Prod.snd hh⟩

theorem pruneV_almost {d : Data} {ps : List (Int × Int)} {vs : List Int}
    (h : AlmostF d ps vs) (i : Int) :
    AlmostF (pruneV d i) ps (vs.filter (fun v => ! decide (v = i))) := by
  unfold pruneV
  split
  · rename_i hdi
    intro a V hV
    have hai : ¬ a = i := fun hh => by
      rw [hh, hdi] at hV
      exact Option.noConfusion hV
    refine ⟨((h a V hV).1).imp_right (fun hv => ?_), (h a V hV).2⟩
    exact List.mem_filter.mpr ⟨hv, filter_pred_ne _ _ hai⟩
  · rename_i V1 hdi
    by_cases hV1 : V1.isEmpty
    · rw [if_pos hV1]
      intro a V hV
      by_cases hai : a = i
      · rw [hai, mfind_merase_self] at hV
        exact absurd hV (by simp)
      · rw [mfind_merase_ne _ _ _ hai] at hV
        refine ⟨((h a V hV).1).imp_right (fun hv => ?_), (h a V hV).2⟩
        exact List.mem_filter.mpr ⟨hv, filter_pred_ne _ _ hai⟩
    · rw [if_neg hV1]
      have hV1ne : V1 ≠ [] := fun hh => hV1 (by simp [hh])
      intro a V hV
      by_cases hai : a = i
      · have hV2 := hV
        rw [hai] at hV2
        have hVe := Option.some.inj (hdi.symm.trans hV2)
        exact ⟨Or.inl (hVe ▸ hV1ne), (h a V hV).2⟩
      · refine ⟨((h a V hV).1).imp_right (fun hv => ?_), (h a V hV).2⟩
        exact List.mem_filter.mpr ⟨hv, filter_pred_ne _ _ hai⟩

theorem pruneAll_restore {d : Data} {i j : Int}
    (h : AlmostF d [(i, j), (j, i)] []) : NoEmptyF (pruneAll d i j) := by
  unfold pruneAll
  have h1 := pruneI_almost h i j
  have h1m : AlmostF (pruneI d i j) [(j, i)] [i] := by
    refine almost_mono h1 (fun p hp => ?_) (fun v hv => hv)
    rcases List.mem_filter.mp hp with ⟨hmem, hne⟩
    simp only [Bool.not_eq_true', decide_eq_false_iff_not] at hne
    simp only [List.mem_cons, List.not_mem_nil, or_false] at hmem
    rcases hmem with h1 | h2
    · exact absurd h1 hne
    · simp [h2]
  have h2 := pruneI_almost h1m j i
  have h2m : AlmostF (pruneI (pruneI d i j) j i) [] [j, i] := by
    refine almost_mono h2 (fun p hp => ?_) (fun v hv => hv)
    rcases List.mem_filter.mp hp with ⟨hmem, hne⟩
    simp only [Bool.not_eq_true', decide_eq_false_iff_not] at hne
    simp only [List.mem_cons, List.not_mem_nil, or_false] at hmem
    exact absurd hmem hne
  have h3 := pruneV_almost h2m i
  have h3m : AlmostF (pruneV (pruneI (pruneI d i j) j i) i) [] [j] := by
    refine almost_mono h3 (fun p hp => hp) (fun v hv => ?_)
    rcases List.mem_filter.mp hv with ⟨hmem, hne⟩
    simp only [Bool.not_eq_true', decide_eq_false_iff_not] at hne
    simp only [List.mem_cons, List.not_mem_nil, or_false] at hmem
    rcases hmem with h1 | h2
    · simp [h1]
    · exact absurd h2 hne
  have h4 := pruneV_almost h3m j
  refine almost_nil (almost_mono h4 (fun p hp => hp) (fun v hv => ?_))
  rcases List.mem_filter.mp hv with ⟨hmem, hne⟩
  simp only [Bool.not_eq_true', decide_eq_false_iff_not] at hne
  simp only [List.mem_cons, List.not_mem_nil, or_false] at hmem
  exact absurd hmem hne

theorem updateD_noEmptyF {d : Data} (h : NoEmptyF d) (i j : Int) (key : String)
    (b : Bool) (x : Val) : NoEmptyF (updateD d i j key b x) :=
  almost_nil (updateD_almost (noEmptyF_almost h [] []) i j key b x)

theorem pair_mem_two {i j : Int} (p : Int × Int)
    (hp : p ∈ ((i, j) :: (j, i) :: [(i, j), (j, i)]) ∨ p ∈ ((j, i) :: (i, j) :: [(i, j), (j, i)])) :
    p ∈ [(i, j), (j, i)] := by
  simp only [List.mem_cons, List.not_mem_nil, or_false] at hp ⊢
  tauto

theorem clear4_noEmptyF (g : Graph) (i j : Int) (key : String) (undir : Bool)
    (h : NoEmptyF g.data) : NoEmptyF (g.clear4 i j key undir).data := by
  unfold Graph.clear4
  split
  · refine pruneAll_restore ?_
    split
    · have h1 := eraseKeyInD_almost (noEmptyF_almost h [] []) i j key
      have h2 := eraseKeyInD_almost h1 j i key
      refine almost_mono h2 (fun p hp => ?_) (fun v hv => hv)
      simp only [List.mem_cons, List.not_mem_nil, or_false] at hp ⊢
      tauto
    · split
      · exact noEmptyF_almost h _ _
      · split
        · have h1 := eraseKeyInD_almost (noEmptyF_almost h [] []) j i key
          have h2 := eraseKeyInD_almost h1 i j key
          refine almost_mono h2 (fun p hp => ?_) (fun v hv => hv)
          simp only [List.mem_cons, List.not_mem_nil, or_false] at hp ⊢
          tauto
        · exact updateD_almost (noEmptyF_almost h _ _) _ _ _ _ _
  · exact h

theorem clearDirStep_almost {d : Data} {i j : Int}
    (h : AlmostF d [(i, j), (j, i)] []) (k : String) :
    AlmostF (clearDirStep d i j k) [(i, j), (j, i)] [] := by
  unfold clearDirStep
  split
  · exact h
  · split
    · have h1 := eraseKeyInD_almost h j i k
      have h2 := eraseKeyInD_almost h1 i j k
      refine almost_mono h2 (fun p hp => ?_) (fun v hv => hv)
      simp only [List.mem_cons, List.not_mem_nil, or_false] at hp ⊢
      tauto
    · exact updateD_almost h _ _ _ _ _

theorem foldl_clearDirStep_almost {i j : Int} (ks : List String) :
    ∀ d : Data, AlmostF d [(i, j), (j, i)] [] →
      AlmostF (ks.foldl (fun d k => clearDirStep d i j k) d) [(i, j), (j, i)] [] := by
  induction ks with
  | nil => exact fun d h => h
  | cons k t ih => exact fun d h => ih _ (clearDirStep_almost h k)

theorem clear_dir2_noEmptyF (g : Graph) (i j : Int) (h : NoEmptyF g.data) :
    NoEmptyF (g.clear_dir2 i j).data := by
  unfold Graph.clear_dir2
  split
  · exact pruneAll_restore (foldl_clearDirStep_almost _ _ (noEmptyF_almost h _ _))
  · exact h

theorem clear_undir2_noEmptyF (g : Graph) (i j : Int) (h : NoEmptyF g.data) :
    NoEmptyF (g.clear_undir2 i j).data := by
  unfold Graph.clear_undir2
  split
  · have h1 := eraseNbrD_almost (noEmptyF_almost h [] []) i j
    have h2 := eraseNbrD_almost h1 j i
    have h3 := pruneV_almost h2 i
    have h3m : AlmostF (pruneV (eraseNbrD (eraseNbrD g.data i j) j i) i) [] [j] := by
      refine almost_mono h3 (fun p hp => hp) (fun v hv => ?_)
      rcases List.mem_filter.mp hv with ⟨hmem, hne⟩
      simp only [Bool.not_eq_true', decide_eq_false_iff_not] at hne
      simp only [List.mem_cons, List.not_mem_nil, or_false] at hmem ⊢
      tauto
    have h4 := pruneV_almost h3m j
    refine almost_nil (almost_mono h4 (fun p hp => hp) (fun v hv => ?_))
    rcases List.mem_filter.mp hv with ⟨hmem, hne⟩
    simp only [Bool.not_eq_true', decide_eq_false_iff_not] at hne
    simp only [List.mem_cons, List.not_mem_nil, or_false] at hmem
    exact absurd hmem hne
  · exact h

theorem merase_outer_noEmptyF {d : Data} (h : NoEmptyF d) (i : Int) :
    NoEmptyF (merase d i) := by
  intro a V hV
  by_cases hai : a = i
  · rw [hai, mfind_merase_self] at hV
    exact absurd hV (by simp)
  · rw [mfind_merase_ne _ _ _ hai] at hV
    exact h a V hV

theorem clearVStep_eq (d : Data) (i x : Int) :
    clearVStep d i x = pruneV (eraseNbrD d x i) x := by
  unfold clearVStep eraseNbrD
  cases hdx : mfind? d x with
  | none => simp [pruneV, hdx]
  | some V => rfl

theorem clearVStep_noEmptyF {d : Data} (h : NoEmptyF d) (i x : Int) :
    NoEmptyF (clearVStep d i x) := by
  rw [clearVStep_eq]
  have h1 := eraseNbrD_almost (noEmptyF_almost h [] []) x i
  have h2 := pruneV_almost h1 x
  refine almost_nil (almost_mono h2 (fun p hp => hp) (fun v hv => ?_))
  rcases List.mem_filter.mp hv with ⟨hmem, hne⟩
  simp only [Bool.not_eq_true', decide_eq_false_iff_not] at hne
  simp only [List.mem_cons, List.not_mem_nil, or_false] at hmem
  exact absurd hmem hne

theorem clearV_noEmptyF (g : Graph) (i : Int) (h : NoEmptyF g.data) :
    NoEmptyF (g.clearV i).data := by
  unfold Graph.clearV
  split
  · have hgen : ∀ (l : List Int) (d : Data), NoEmptyF d →
        NoEmptyF (l.foldl (fun d x => clearVStep d i x) d) := by
      intro l
      induction l with
      | nil => exact fun d hd => hd
      | cons x t ih => exact fun d hd => ih _ (clearVStep_noEmptyF hd i x)
    exact hgen _ _ (merase_outer_noEmptyF h i)
  · exact h

theorem clearK_noEmptyF (g : Graph) (key : String) :
    NoEmptyF (g.clearK key).data := by
  intro a V hV
  have hmem := mfind_mem hV
  rcases List.mem_filter.mp hmem with ⟨hmap, hpass⟩
  constructor
  · intro hVnil
    rw [hVnil] at hpass
    simp at hpass
  · intro b N hN
    have hm2 := mfind_mem hN
    rcases List.mem_map.mp hmap with ⟨q, hq, hfq⟩
    have hVform : V = (q.2.map (fun jN => (jN.1, merase jN.2 key))).filter
        (fun jN => ! jN.2.isEmpty) := (congrArg Prod.snd hfq).symm
    rw [hVform] at hm2
    rcases List.mem_filter.mp hm2 with ⟨hmap2, hpass2⟩
    intro hNnil
    rw [hNnil] at hpass2
    simp at hpass2

theorem clearAll_noEmptyF (g : Graph) : NoEmptyF g.clearAll.data := by
  intro a V hV
  simp [mfind?, Graph.clearAll] at hV

theorem set5_noEmptyF (g : Graph) (i j : Int) (key : String) (undir : Bool) (x : Val)
    (h : NoEmptyF g.data) : NoEmptyF (g.set5 i j key undir x).data := by
  unfold Graph.set5
  split
  · cases undir
    · exact clear4_noEmptyF g i j key false h
    · exact clear4_noEmptyF g i j key true h
  · cases undir
    · simp only [Bool.false_eq_true, if_false]
      split
      · exact updateD_noEmptyF h i j key true x
      · exact updateD_noEmptyF (updateD_noEmptyF h i j key true x) j i key false x
    · simp only [if_true]
      exact updateD_noEmptyF (updateD_noEmptyF h i j key true x) j i key true x

theorem foldl_graph_noEmptyF {α : Type} (f : Graph → α → Graph)
    (hf : ∀ g2 a, NoEmptyF (Graph.data g2) → NoEmptyF (f g2 a).data) :
    ∀ (l : List α) (g2 : Graph), NoEmptyF g2.data → NoEmptyF (l.foldl f g2).data := by
  intro l
  induction l with
  | nil => exact fun g2 hg => hg
  | cons a t ih => exact fun g2 hg => ih _ (hf g2 a hg)

/-- Preservation of the cleanup invariant by one public mutation. -/
theorem applyOp_noEmptyF (g : Graph) (op : Op) (h : NoEmptyF g.data) :
    NoEmptyF (applyOp g op).data := by
  cases op with
  | oSet5 i j key undir x => exact set5_noEmptyF g i j key undir x h
  | oSet4 i j key x => exact set5_noEmptyF g i j key (! g.directed) x h
  | oSetDir4 i j key x => exact set5_noEmptyF g i j key false x h
  | oSetUndir4 i j key x => exact set5_noEmptyF g i j key true x h
  | oSet3 i j x => exact set5_noEmptyF g i j "" (! g.directed) x h
  | oSetDir3 i j x => exact set5_noEmptyF g i j "" false x h
  | oSetUndir3 i j x => exact set5_noEmptyF g i j "" true x h
  | oClear4 i j key undir => exact clear4_noEmptyF g i j key undir h
  | oClearDir3 i j key => exact clear4_noEmptyF g i j key false h
  | oClearUndir3 i j key => exact clear4_noEmptyF g i j key true h
  | oClear3 i j key => exact clear4_noEmptyF g i j key (! g.directed) h
  | oClearDir2 i j => exact clear_dir2_noEmptyF g i j h
  | oClearUndir2 i j => exact clear_undir2_noEmptyF g i j h
  | oClear2 i j =>
    show NoEmptyF (g.clear2 i j).data
    unfold Graph.clear2
    split
    · exact clear_dir2_noEmptyF g i j h
    · exact clear_undir2_noEmptyF g i j h
  | oClearDirVK i key =>
    exact foldl_graph_noEmptyF _ (fun g2 x hg => clear4_noEmptyF g2 i x key false hg) _ g h
  | oClearUndirVK i key =>
    exact foldl_graph_noEmptyF _ (fun g2 x hg => clear4_noEmptyF g2 i x key true hg) _ g h
  | oClearVK i key =>
    show NoEmptyF (g.clearVK i key).data
    unfold Graph.clearVK
    split
    · exact foldl_graph_noEmptyF _ (fun g2 x hg => clear4_noEmptyF g2 i x key false hg) _ g h
    · exact foldl_graph_noEmptyF _ (fun g2 x hg => clear4_noEmptyF g2 i x key true hg) _ g h
  | oClearV i => exact clearV_noEmptyF g i h
  | oClearK key => exact clearK_noEmptyF g key
  | oClearAll => exact clearAll_noEmptyF g

/-- C9. After any finite sequence of public set and clear calls starting
from an empty store (any configuration), the table has no dangling empty
container: every source vertex present maps to a nonempty neighbor map
and every neighbor present maps to a nonempty relation map. -/
theorem C9_no_empty_maps (dir : Bool) (nr : Val) (ops : List Op) :
    NoEmptyF (applyOps (Graph.mk dir nr []) ops).data := by
  have hgen : ∀ (l : List Op) (g : Graph), NoEmptyF g.data → NoEmptyF (applyOps g l).data := by
    intro l
    induction l with
    | nil => exact fun g hg => hg
    | cons op t ih => exact fun g hg => ih _ (applyOp_noEmptyF g op hg)
  refine hgen ops _ ?_
  intro a V hV
  simp [mfind?] at hV

/-- Invariant 1 of the spec, read so that all three kinds of legal pair
states (undirected symmetric, one-way directed, two-way directed with
independent magnitudes) satisfy it: every outward entry at (i,j,key) has
a mirror entry at (j,i,key), and when that mirror is mirror-only
(outward = false) it stores the same magnitude (so get reads it back
negated, as section 4.2 of the spec describes). The spec's "equal
magnitude when the relationship is undirected" clause cannot constrain
two-way directed pairs, which the spec itself builds with different
magnitudes in its demotion scenario. -/
def MirrorInv (d : Data) : Prop :=
  ∀ i j k e, findE d i j k = some e → e.1 = true →
    ∃ e2, findE d j i k = some e2 ∧ (e2.1 = false → e2.2 = e.2)

/-- Well-formedness every std::map state has by construction: unique keys
at the vertex level and in each neighbor map. -/
def WF (d : Data) : Prop :=
  (d.map Prod.fst).Nodup ∧ ∀ iV ∈ d, (iV.2.map Prod.fst).Nodup

theorem mirror_congr {d d2 : Data} (hfe : ∀ a c k, findE d2 a c k = findE d a c k)
    (hm : MirrorInv d) : MirrorInv d2 := by
  intro a c k e hE he
  rw [hfe] at hE
  rcases hm a c k e hE he with ⟨e2, hE2, hcond⟩
  refine ⟨e2, ?_, hcond⟩
  rw [hfe]
  exact hE2

theorem mirror_nil : MirrorInv [] := by
  intro a c k e hE he
  simp [findE, findN, mfind?] at hE

theorem outward_cond {e2 : Bool × Val} (h : e2.1 = true) (m : Val) :
    e2.1 = false → e2.2 = m :=
  fun hf => absurd (h.symm.trans hf) (by simp)

theorem updateD2_mirror_undir {d : Data} (hm : MirrorInv d) (i j : Int) (key : String)
    (x : Val) :
    MirrorInv (updateD (updateD d i j key true x) j i key true x) := by
  intro a c k e hE he
  rw [findE_updateD, findE_updateD] at hE
  by_cases h2 : a = j ∧ c = i ∧ k = key
  · refine ⟨(true, x), ?_, by simp⟩
    rw [findE_updateD]
    by_cases hq2 : c = j ∧ a = i ∧ k = key
    · rw [if_pos hq2]
    · rw [if_neg hq2, findE_updateD, if_pos ⟨h2.2.1, h2.1, h2.2.2⟩]
  · rw [if_neg h2] at hE
    by_cases h1 : a = i ∧ c = j ∧ k = key
    · refine ⟨(true, x), ?_, by simp⟩
      rw [findE_updateD, if_pos ⟨h1.2.1, h1.1, h1.2.2⟩]
    · rw [if_neg h1] at hE
      rcases hm a c k e hE he with ⟨e2, hE2, hcond⟩
      by_cases hq2 : c = j ∧ a = i ∧ k = key
      · refine ⟨(true, x), ?_, by simp⟩
        rw [findE_updateD, if_pos hq2]
      · by_cases hq1 : c = i ∧ a = j ∧ k = key
        · refine ⟨(true, x), ?_, by simp⟩
          rw [findE_updateD, if_neg hq2, findE_updateD, if_pos hq1]
        · refine ⟨e2, ?_, hcond⟩
          rw [findE_updateD, if_neg hq2, findE_updateD, if_neg hq1]
          exact hE2

theorem updateD_dir_nowrite_mirror {d : Data} (hm : MirrorInv d) (i j : Int) (key : String)
    (x : Val) {em : Bool × Val}
    (hmir : findE (updateD d i j key true x) j i key = some em) (hout : em.1 = true) :
    MirrorInv (updateD d i j key true x) := by
  intro a c k e hE he
  rw [findE_updateD] at hE
  by_cases h1 : a = i ∧ c = j ∧ k = key
  · refine ⟨em, ?_, outward_cond hout _⟩
    rw [h1.2.1, h1.1, h1.2.2]
    exact hmir
  · rw [if_neg h1] at hE
    rcases hm a c k e hE he with ⟨e2, hE2, hcond⟩
    by_cases hq1 : c = i ∧ a = j ∧ k = key
    · refine ⟨(true, x), ?_, by simp⟩
      rw [findE_updateD, if_pos hq1]
    · refine ⟨e2, ?_, hcond⟩
      rw [findE_updateD, if_neg hq1]
      exact hE2

theorem updateD_dir_write_mirror {d : Data} (hm : MirrorInv d) (i j : Int) (key : String)
    (x : Val) (hno : (entryD (updateD d i j key true x) j i key).1 = false) :
    MirrorInv (updateD (updateD d i j key true x) j i key false x) := by
  have hij : ¬ i = j := by
    intro hij
    have hset : findE (updateD d i j key true x) j i key = some (true, x) := by
      rw [findE_updateD, if_pos ⟨hij.symm, hij, rfl⟩]
    rw [entryD, hset] at hno
    simp at hno
  intro a c k e hE he
  rw [findE_updateD] at hE
  by_cases h2 : a = j ∧ c = i ∧ k = key
  · rw [if_pos h2] at hE
    have hee : e = (false, x) := (Option.some.inj hE).symm
    rw [hee] at he
    simp at he
  · rw [if_neg h2, findE_updateD] at hE
    by_cases h1 : a = i ∧ c = j ∧ k = key
    · rw [if_pos h1] at hE
      have hee : e = (true, x) := (Option.some.inj hE).symm
      refine ⟨(false, x), ?_, fun _ => by rw [hee]⟩
      rw [findE_updateD, if_pos ⟨h1.2.1, h1.1, h1.2.2⟩]
    · rw [if_neg h1] at hE
      rcases hm a c k e hE he with ⟨e2, hE2, hcond⟩
      by_cases hq2 : c = j ∧ a = i ∧ k = key
      · exact absurd ⟨hq2.2.1, hq2.1, hq2.2.2⟩ h1
      · by_cases hq1 : c = i ∧ a = j ∧ k = key
        · exfalso
          rw [hq1.2.1, hq1.1, hq1.2.2] at hE
          have hd1 : findE (updateD d i j key true x) j i key = some e := by
            rw [findE_updateD, if_neg (fun hh => hij hh.1.symm)]
            exact hE
          rw [entryD, hd1] at hno
          simp only [Option.getD_some] at hno
          rw [he] at hno
          exact Bool.noConfusion hno
        · refine ⟨e2, ?_, hcond⟩
          rw [findE_updateD, if_neg hq2, findE_updateD, if_neg hq1]
          exact hE2

theorem set5_dir_cond (g : Graph) (d1 : Data) (j i : Int) (key : String) :
    (((Graph.mk g.directed g.no_relationship d1).contains3 j i key)
      && (entryD d1 j i key).1) = (entryD d1 j i key).1 := by
  simp only [Graph.contains3, Graph.contains4, entryD]
  cases hE : findE d1 j i key with
  | none => simp
  | some R => cases hR : R.1 <;> simp [hR]

theorem double_erase_mirror {d : Data} (hm : MirrorInv d) (p q : Int) (key : String) :
    MirrorInv (eraseKeyInD (eraseKeyInD d p q key) q p key) := by
  intro a c k e hE he
  rw [findE_eraseKeyInD, findE_eraseKeyInD] at hE
  by_cases h2 : a = q ∧ c = p ∧ k = key
  · rw [if_pos h2] at hE
    exact Option.noConfusion hE
  · rw [if_neg h2] at hE
    by_cases h1 : a = p ∧ c = q ∧ k = key
    · rw [if_pos h1] at hE
      exact Option.noConfusion hE
    · rw [if_neg h1] at hE
      rcases hm a c k e hE he with ⟨e2, hE2, hcond⟩
      refine ⟨e2, ?_, hcond⟩
      rw [findE_eraseKeyInD, if_neg (fun hh => h1 ⟨hh.2.1, hh.1, hh.2.2⟩),
        findE_eraseKeyInD, if_neg (fun hh => h2 ⟨hh.2.1, hh.1, hh.2.2⟩)]
      exact hE2

theorem demote_mirror {d : Data} (hm : MirrorInv d) (i j : Int) (key : String)
    (h2 : ¬ (entryD d j i key).1 = false) :
    MirrorInv (updateD d i j key false (entryD d j i key).2) := by
  have hm2 : ∃ em, findE d j i key = some em ∧ em.1 = true := by
    rcases hE : findE d j i key with _ | em
    · rw [entryD, hE] at h2
      simp at h2
    · rw [entryD, hE] at h2
      simp only [Option.getD_some, Bool.not_eq_false] at h2
      exact ⟨em, rfl, h2⟩
  rcases hm2 with ⟨em, hEm, hout⟩
  have hw : (entryD d j i key).2 = em.2 := by
    simp [entryD, hEm]
  intro a c k e hE he
  rw [findE_updateD] at hE
  by_cases hp : a = i ∧ c = j ∧ k = key
  · rw [if_pos hp] at hE
    have hee : e = (false, (entryD d j i key).2) := (Option.some.inj hE).symm
    rw [hee] at he
    simp at he
  · rw [if_neg hp] at hE
    rcases hm a c k e hE he with ⟨e2, hE2, hcond⟩
    by_cases hq : c = i ∧ a = j ∧ k = key
    · have hee : e = em := by
        rw [hq.2.1, hq.1, hq.2.2] at hE
        exact (Option.some.inj (hEm.symm.trans hE)).symm
      refine ⟨(false, (entryD d j i key).2), ?_, fun _ => ?_⟩
      · rw [findE_updateD, if_pos hq]
      · rw [hw, hee]
    · refine ⟨e2, ?_, hcond⟩
      rw [findE_updateD, if_neg hq]
      exact hE2

theorem clear4_mirror (g : Graph) (i j : Int) (key : String) (undir : Bool)
    (hm : MirrorInv g.data) : MirrorInv (g.clear4 i j key undir).data := by
  unfold Graph.clear4
  split
  · refine mirror_congr (fun a c k => findE_pruneAll _ i j a c k) ?_
    split
    · exact double_erase_mirror hm i j key
    · split
      · exact hm
      · split
        · exact double_erase_mirror hm j i key
        · rename_i hskip hmir
          exact demote_mirror hm i j key hmir
  · exact hm

theorem clearDirStep_mirror {d : Data} (hm : MirrorInv d) (i j : Int) (k0 : String) :
    MirrorInv (clearDirStep d i j k0) := by
  unfold clearDirStep
  split
  · exact hm
  · split
    · exact double_erase_mirror hm j i k0
    · rename_i hskip hmir
      exact demote_mirror hm i j k0 hmir

theorem foldl_clearDirStep_mirror {i j : Int} (ks : List String) :
    ∀ d, MirrorInv d → MirrorInv (ks.foldl (fun d k => clearDirStep d i j k) d) := by
  induction ks with
  | nil => exact fun d h => h
  | cons k t ih => exact fun d h => ih _ (clearDirStep_mirror h i j k)

theorem clear_dir2_mirror (g : Graph) (i j : Int) (hm : MirrorInv g.data) :
    MirrorInv (g.clear_dir2 i j).data := by
  unfold Graph.clear_dir2
  split
  · exact mirror_congr (fun a c k => findE_pruneAll _ i j a c k)
      (foldl_clearDirStep_mirror _ _ hm)
  · exact hm

theorem clear_undir2_mirror (g : Graph) (i j : Int) (hm : MirrorInv g.data) :
    MirrorInv (g.clear_undir2 i j).data := by
  unfold Graph.clear_undir2
  split
  · have hinner : MirrorInv (eraseNbrD (eraseNbrD g.data i j) j i) := by
      intro a c k e hE he
      rw [findE_eraseNbrD, findE_eraseNbrD] at hE
      by_cases h2 : a = j ∧ c = i
      · rw [if_pos h2] at hE
        exact Option.noConfusion hE
      · rw [if_neg h2] at hE
        by_cases h1 : a = i ∧ c = j
        · rw [if_pos h1] at hE
          exact Option.noConfusion hE
        · rw [if_neg h1] at hE
          rcases hm a c k e hE he with ⟨e2, hE2, hcond⟩
          refine ⟨e2, ?_, hcond⟩
          rw [findE_eraseNbrD, if_neg (fun hh => h1 ⟨hh.2, hh.1⟩),
            findE_eraseNbrD, if_neg (fun hh => h2 ⟨hh.2, hh.1⟩)]
          exact hE2
    exact mirror_congr (fun a c k => by rw [findE_pruneV, findE_pruneV]) hinner
  · exact hm

theorem set5_mirror (g : Graph) (i j : Int) (key : String) (undir : Bool) (x : Val)
    (hm : MirrorInv g.data) : MirrorInv (g.set5 i j key undir x).data := by
  unfold Graph.set5
  split
  · cases undir
    · exact clear4_mirror g i j key false hm
    · exact clear4_mirror g i j key true hm
  · cases undir
    · simp only [Bool.false_eq_true, if_false, set5_dir_cond]
      split
      · rename_i hout
        have hsome : ∃ em, findE (updateD g.data i j key true x) j i key = some em
            ∧ em.1 = true := by
          rcases hE : findE (updateD g.data i j key true x) j i key with _ | em
          · rw [entryD, hE] at hout
            simp at hout
          · rw [entryD, hE] at hout
            simp only [Option.getD_some] at hout
            exact ⟨em, rfl, hout⟩
        rcases hsome with ⟨em, hE, hout2⟩
        exact updateD_dir_nowrite_mirror hm i j key x hE hout2
      · rename_i hout
        exact updateD_dir_write_mirror hm i j key x (Bool.eq_false_iff.mpr hout)
    · simp only [if_true]
      exact updateD2_mirror_undir hm i j key x

theorem findE_merase_outer (d : Data) (i : Int) (a c : Int) (k : String) :
    findE (merase d i) a c k = if a = i then none else findE d a c k := by
  by_cases hai : a = i
  · rw [if_pos hai, hai]
    simp [findE, findN, mfind_merase_self]
  · rw [if_neg hai]
    simp [findE, findN, mfind_merase_ne _ _ _ hai]

theorem findE_clearVStep (d : Data) (i x : Int) (a c : Int) (k : String) :
    findE (clearVStep d i x) a c k = if a = x ∧ c = i then none else findE d a c k := by
  rw [clearVStep_eq, findE_pruneV, findE_eraseNbrD]

theorem findE_clearV_fold (i : Int) (N : List Int) :
    ∀ (d : Data) (a c : Int) (k : String),
      findE (N.foldl (fun d x => clearVStep d i x) d) a c k
        = if a ∈ N ∧ c = i then none else findE d a c k := by
  induction N with
  | nil =>
    intro d a c k
    simp
  | cons x t ih =>
    intro d a c k
    show findE (t.foldl (fun d x => clearVStep d i x) (clearVStep d i x)) a c k = _
    rw [ih, findE_clearVStep]
    by_cases hc : c = i
    · by_cases hat : a ∈ t
      · simp [hc, hat]
      · by_cases hax : a = x
        · simp [hc, hat, hax]
        · simp [hc, hat, hax]
    · simp [hc]

theorem mem_nbrsUD_of_findN {d : Data} {i a : Int} {N2 : KeyMap}
    (h : findN d i a = some N2) (hne : N2 ≠ []) : a ∈ nbrsUD d i false "" := by
  unfold findN at h
  unfold nbrsUD
  cases hdi : mfind? d i with
  | none =>
    rw [hdi] at h
    exact Option.noConfusion h
  | some V =>
    rw [hdi] at h
    simp only [Option.some_bind] at h
    have hmem := mfind_mem h
    simp only [Option.getD_some]
    refine List.mem_map.mpr ⟨(a, N2), List.mem_filter.mpr ⟨hmem, ?_⟩, rfl⟩
    simp [List.isEmpty_iff, hne]

theorem clearV_mirror (g : Graph) (i : Int) (hm : MirrorInv g.data) :
    MirrorInv (g.clearV i).data := by
  unfold Graph.clearV
  split
  · intro a c k e hE he
    rw [findE_clearV_fold, findE_merase_outer] at hE
    by_cases hN : a ∈ nbrsUD g.data i false "" ∧ c = i
    · rw [if_pos hN] at hE
      exact Option.noConfusion hE
    · rw [if_neg hN] at hE
      by_cases hai : a = i
      · rw [if_pos hai] at hE
        exact Option.noConfusion hE
      · rw [if_neg hai] at hE
        rcases hm a c k e hE he with ⟨e2, hE2, hcond⟩
        have hci : ¬ c = i := by
          intro hci
          apply hN
          refine ⟨?_, hci⟩
          rw [hci] at hE2
          rw [findE] at hE2
          cases hfn : findN g.data i a with
          | none =>
            rw [hfn] at hE2
            exact Option.noConfusion hE2
          | some N2 =>
            rw [hfn] at hE2
            simp only [Option.some_bind] at hE2
            refine mem_nbrsUD_of_findN hfn ?_
            intro hnil
            rw [hnil] at hE2
            simp [mfind?] at hE2
        refine ⟨e2, ?_, hcond⟩
        rw [findE_clearV_fold, findE_merase_outer,
          if_neg (fun hh => hai hh.2), if_neg hci]
        exact hE2
  · exact hm

theorem mfind_eq_none_of_not_mem_keys {α β : Type} [DecidableEq α] {l : List (α × β)} {a : α}
    (h : ∀ v, (a, v) ∉ l) : mfind? l a = none := by
  cases hmf : mfind? l a with
  | none => rfl
  | some v => exact absurd (mfind_mem hmf) (h v)

theorem mfind_mapFilter {α β : Type} [DecidableEq α] (l : List (α × β)) (F : β → β)
    (p : β → Bool) (hnd : (l.map Prod.fst).Nodup) (a : α) :
    mfind? ((l.map (fun q => (q.1, F q.2))).filter (fun q => p q.2)) a
      = (mfind? l a).bind (fun V => if p (F V) then some (F V) else none) := by
  induction l with
  | nil => rfl
  | cons q t ih =>
    obtain ⟨c0, b0⟩ := q
    have hc0 : c0 ∉ t.map Prod.fst := (List.nodup_cons.mp hnd).1
    have hnd2 : (t.map Prod.fst).Nodup := (List.nodup_cons.mp hnd).2
    by_cases hp : p (F b0)
    · by_cases hca : c0 = a
      · simp [mfind?, List.filter_cons, hca, hp]
      · simp [mfind?, List.filter_cons, hca, hp, ih hnd2]
    · by_cases hca : c0 = a
      · have hnone : mfind? ((t.map (fun q => (q.1, F q.2))).filter (fun q => p q.2)) a
            = none := by
          refine mfind_eq_none_of_not_mem_keys ?_
          intro v hv
          rcases List.mem_filter.mp hv with ⟨hm2, _⟩
          rcases List.mem_map.mp hm2 with ⟨q2, hq2, hfq2⟩
          have hq2a : q2.1 = a := congrArg Prod.fst hfq2
          refine hc0 ?_
          rw [hca]
          exact hq2a ▸ List.mem_map.mpr ⟨q2, hq2, rfl⟩
        simp [mfind?, List.filter_cons, hca, hp, hnone]
      · simp [mfind?, List.filter_cons, hca, hp, ih hnd2]

theorem mfind_clearK_outer (l : Data) (key : String) (hnd : (l.map Prod.fst).Nodup)
    (a : Int) :
    mfind? ((l.map (fun iV => (iV.1,
        (iV.2.map (fun jN => (jN.1, merase jN.2 key))).filter
          (fun jN => ! jN.2.isEmpty)))).filter (fun iV => ! iV.2.isEmpty)) a
      = (mfind? l a).bind (fun V =>
          if ! ((V.map (fun jN => (jN.1, merase jN.2 key))).filter
              (fun jN => ! jN.2.isEmpty)).isEmpty
          then some ((V.map (fun jN => (jN.1, merase jN.2 key))).filter
              (fun jN => ! jN.2.isEmpty))
          else none) :=
  mfind_mapFilter l
    (fun V => (V.map (fun jN => (jN.1, merase jN.2 key))).filter (fun jN => ! jN.2.isEmpty))
    (fun V => ! V.isEmpty) hnd a

theorem mfind_clearK_inner (V : NbrMap) (key : String) (hnd : (V.map Prod.fst).Nodup)
    (c : Int) :
    mfind? ((V.map (fun jN => (jN.1, merase jN.2 key))).filter
        (fun jN => ! jN.2.isEmpty)) c
      = (mfind? V c).bind (fun N =>
          if ! (merase N key).isEmpty then some (merase N key) else none) :=
  mfind_mapFilter V (fun N => merase N key) (fun N => ! N.isEmpty) hnd c

theorem findE_clearK (g : Graph) (key : String) (hwf : WF g.data) (a c : Int)
    (k : String) :
    findE (g.clearK key).data a c k
      = if k = key then none else findE g.data a c k := by
  show findE ((g.data.map (fun iV => (iV.1,
      (iV.2.map (fun jN => (jN.1, merase jN.2 key))).filter
        (fun jN => ! jN.2.isEmpty)))).filter (fun iV => ! iV.2.isEmpty)) a c k = _
  simp only [findE, findN]
  rw [mfind_clearK_outer g.data key hwf.1 a]
  cases hda : mfind? g.data a with
  | none => simp [ite_self]
  | some V =>
    have hndV : (V.map Prod.fst).Nodup := hwf.2 (a, V) (mfind_mem hda)
    simp only [Option.some_bind]
    by_cases hp1 : ! ((V.map (fun jN => (jN.1, merase jN.2 key))).filter
        (fun jN => ! jN.2.isEmpty)).isEmpty
    · rw [if_pos hp1]
      simp only [Option.some_bind]
      rw [mfind_clearK_inner V key hndV c]
      cases hVc : mfind? V c with
      | none => simp [ite_self]
      | some N =>
        simp only [Option.some_bind]
        by_cases hp2 : ! (merase N key).isEmpty
        · rw [if_pos hp2]
          simp only [Option.some_bind]
          by_cases hk : k = key
          · rw [if_pos hk, hk, mfind_merase_self]
          · rw [if_neg hk, mfind_merase_ne _ _ _ hk]
        · rw [if_neg hp2]
          have hmer : merase N key = [] := by
            simp only [Bool.not_eq_true, Bool.not_eq_false'] at hp2
            exact List.isEmpty_iff.mp hp2
          by_cases hk : k = key
          · rw [if_pos hk]
            rfl
          · rw [if_neg hk, mfind_eq_none_of_nil_merase hmer k hk]
            rfl
    · rw [if_neg hp1]
      have hnil : (V.map (fun jN => (jN.1, merase jN.2 key))).filter
          (fun jN => ! jN.2.isEmpty) = [] := by
        simp only [Bool.not_eq_true, Bool.not_eq_false'] at hp1
        exact List.isEmpty_iff.mp hp1
      by_cases hk : k = key
      · rw [if_pos hk]
        rfl
      · rw [if_neg hk]
        cases hVc : mfind? V c with
        | none => rfl
        | some N =>
          simp only [Option.some_bind]
          have hmem : (c, merase N key) ∈ V.map (fun jN => (jN.1, merase jN.2 key)) :=
            List.mem_map.mpr ⟨(c, N), mfind_mem hVc, rfl⟩
          have hfail := List.filter_eq_nil_iff.mp hnil _ hmem
          simp only [Bool.not_eq_true, Bool.not_eq_false'] at hfail
          have hmer : merase N key = [] := List.isEmpty_iff.mp hfail
          rw [mfind_eq_none_of_nil_merase hmer k hk]
          rfl

theorem clearK_mirror (g : Graph) (key : String) (hwf : WF g.data)
    (hm : MirrorInv g.data) : MirrorInv (g.clearK key).data := by
  intro a c k e hE he
  rw [findE_clearK g key hwf] at hE
  by_cases hk : k = key
  · rw [if_pos hk] at hE
    exact Option.noConfusion hE
  · rw [if_neg hk] at hE
    rcases hm a c k e hE he with ⟨e2, hE2, hcond⟩
    refine ⟨e2, ?_, hcond⟩
    rw [findE_clearK g key hwf, if_neg hk]
    exact hE2

theorem clearAll_mirror (g : Graph) : MirrorInv g.clearAll.data :=
  mirror_nil

theorem foldl_graph_mirror {α : Type} (f : Graph → α → Graph)
    (hf : ∀ g2 x, MirrorInv (Graph.data g2) → MirrorInv (f g2 x).data) :
    ∀ (l : List α) (g2 : Graph), MirrorInv g2.data → MirrorInv (l.foldl f g2).data := by
  intro l
  induction l with
  | nil => exact fun g2 hg => hg
  | cons x t ih => exact fun g2 hg => ih _ (hf g2 x hg)

/-- C3. Every public set or clear operation preserves the mirror
invariant: in any well-formed state in which every outward entry at
(i,j,key) has a mirror entry at (j,i,key) whose magnitude it shares when
the mirror is mirror-only, the state after one call again satisfies it.
(Well-formedness of the association lists, WF, corresponds to the key
uniqueness every std::map state has by construction.) -/
theorem C3_mirror_invariant (op : Op) (g : Graph) (hwf : WF g.data)
    (hm : MirrorInv g.data) : MirrorInv (applyOp g op).data := by
  cases op with
  | oSet5 i j key undir x => exact set5_mirror g i j key undir x hm
  | oSet4 i j key x => exact set5_mirror g i j key (! g.directed) x hm
  | oSetDir4 i j key x => exact set5_mirror g i j key false x hm
  | oSetUndir4 i j key x => exact set5_mirror g i j key true x hm
  | oSet3 i j x => exact set5_mirror g i j "" (! g.directed) x hm
  | oSetDir3 i j x => exact set5_mirror g i j "" false x hm
  | oSetUndir3 i j x => exact set5_mirror g i j "" true x hm
  | oClear4 i j key undir => exact clear4_mirror g i j key undir hm
  | oClearDir3 i j key => exact clear4_mirror g i j key false hm
  | oClearUndir3 i j key => exact clear4_mirror g i j key true hm
  | oClear3 i j key => exact clear4_mirror g i j key (! g.directed) hm
  | oClearDir2 i j => exact clear_dir2_mirror g i j hm
  | oClearUndir2 i j => exact clear_undir2_mirror g i j hm
  | oClear2 i j =>
    show MirrorInv (g.clear2 i j).data
    unfold Graph.clear2
    split
    · exact clear_dir2_mirror g i j hm
    · exact clear_undir2_mirror g i j hm
  | oClearDirVK i key =>
    exact foldl_graph_mirror _ (fun g2 x hg => clear4_mirror g2 i x key false hg) _ g hm
  | oClearUndirVK i key =>
    exact foldl_graph_mirror _ (fun g2 x hg => clear4_mirror g2 i x key true hg) _ g hm
  | oClearVK i key =>
    show MirrorInv (g.clearVK i key).data
    unfold Graph.clearVK
    split
    · exact foldl_graph_mirror _ (fun g2 x hg => clear4_mirror g2 i x key false hg) _ g hm
    · exact foldl_graph_mirror _ (fun g2 x hg => clear4_mirror g2 i x key true hg) _ g hm
  | oClearV i => exact clearV_mirror g i hm
  | oClearK key => exact clearK_mirror g key hwf hm
  | oClearAll => exact clearAll_mirror g

theorem C3_witness :
    MirrorInv (applyOp (Graph.mk true 0 []) (Op.oSet5 1 2 "a" false 5)).data :=
  C3_mirror_invariant (Op.oSet5 1 2 "a" false 5) (Graph.mk true 0 [])
    ⟨List.nodup_nil, by simp⟩ mirror_nil

end bygis
